import Mathlib

/-!
Shallow embedding of the iNES (.nes) cartridge-image checker/splitter
(`ines.py`).  Bytes are modelled as `Nat` (values 0–255), byte strings as
`List Nat`, and fallible Python code as `Except PyError`.  Each definition
below is translated from the corresponding function of the source file.
-/

/-- Python exceptions observable in the embedded fragment: `InesError msg`
raised by the parser, and the `NameError` raised by the buggy `warn` helper
(whose body prints the undefined name `msg` instead of its parameter). -/
inductive PyError where
  | inesError : String → PyError
  | nameError : PyError
deriving DecidableEq

/-- The three header layouts; the source tags them with the strings
"Archaic", "Normal" and "NES 2.0" (classes `InesArchaic`, `InesNormal`,
`Ines2`). -/
inductive Variant where
  | archaic : Variant
  | normal : Variant
  | nes2 : Variant
deriving DecidableEq

/-- `Ines.Mirroring` enum of the source. -/
inductive Mirroring where
  | horizontal : Mirroring
  | vertical : Mirroring
  | fourscreen : Mirroring
deriving DecidableEq

/-- `Ines.TvSystem` enum of the source. -/
inductive TvSystem where
  | ntsc : TvSystem
  | pal : TvSystem
  | dual : TvSystem
deriving DecidableEq

/-- The parsed cartridge record.  The source uses a class hierarchy
(`Ines` with subclasses `InesArchaic`, `InesNormal`, `Ines2`); here the
variant-specific fields are flattened into one structure, left at their
`__init__` defaults when the variant does not set them. -/
structure Ines where
  variant : Variant
  mapper : Nat
  prg : List Nat
  chr_ : List Nat
  mirroring : Mirroring
  battery : Bool
  trainer : List Nat
  tv : TvSystem
  prgram_size : Nat
  vs : Bool
  playchoice : Bool
  submapper : Nat
  prgram_volatile_size : Nat
  prgram_nonvolatile_size : Nat
  chrram_volatile_size : Nat
  chrram_nonvolatile_size : Nat
  vs_mode : Nat
  vs_ppu : Nat
deriving DecidableEq

/-- `INES_MAGIC = b"NES\x1A"`. -/
def INES_MAGIC : List Nat := [0x4E, 0x45, 0x53, 0x1A]

/-- `TRAINER_SIZE = 512`. -/
def TRAINER_SIZE : Nat := 512

/-- `seq_is_doubled(seq)`: whether the first and second halves of `seq`
are identical (`seq[:len(seq)//2] == seq[len(seq)//2:]`). -/
def seq_is_doubled (seq : List Nat) : Bool :=
  seq.take (seq.length / 2) == seq.drop (seq.length / 2)

/-- `seq_half(seq) = seq[:len(seq)//2]`. -/
def seq_half (seq : List Nat) : List Nat :=
  seq.take (seq.length / 2)

/-- `seq_chunks(seq, n)`: split `seq` into consecutive chunks of `n` bytes
(the last chunk may be shorter).  The Python generator loops over
`range(0, len(seq), n)`; a zero step is never used at the call sites. -/
def seq_chunks (seq : List Nat) (n : Nat) : List (List Nat) :=
  if h : seq = [] ∨ n = 0 then []
  else seq.take n :: seq_chunks (seq.drop n) n
termination_by seq.length
decreasing_by
  push_neg at h
  have hpos : 0 < seq.length := List.length_pos.mpr h.1
  simp only [List.length_drop]
  omega

/-- `warn(str_)`: the body executes `print("WARN:", msg, file=sys.stderr)`
where `msg` is an undefined name, so every call raises `NameError` at
runtime instead of printing the message. -/
def warn (str_ : String) : Except PyError Unit :=
  Except.error PyError.nameError

/-- `read_exact(in_, n)`: read the next `n` bytes of the stream (modelled
as the first `n` bytes of the remaining input); fewer available bytes
raise `InesError("incomplete file")`. -/
def read_exact (input : List Nat) (n : Nat) : Except PyError (List Nat) :=
  if (input.take n).length = n then Except.ok (input.take n)
  else Except.error (PyError.inesError "incomplete file")

/-- `bytes_cut(buf, off, size) = (buf[off:off+size], off + size)`. -/
def bytes_cut (buf : List Nat) (off size : Nat) : List Nat × Nat :=
  ((buf.drop off).take size, off + size)

/-- Python `"{:02d}".format(i)`: decimal rendering left-padded with zeros
to width 2. -/
def format02d (i : Nat) : String :=
  (if i < 10 then "0" else "") ++ toString i

/-- The field defaults established by `Ines.__init__` and the subclass
`__init__` methods (`InesArchaic`, `InesNormal`, `Ines2` all initialise
their extra fields to zero / false / NTSC), with the variant tag the
subclass sets. -/
def Ines.init (v : Variant) : Ines where
  variant := v
  mapper := 0
  prg := []
  chr_ := []
  mirroring := Mirroring.horizontal
  battery := false
  trainer := []
  tv := TvSystem.ntsc
  prgram_size := 0
  vs := false
  playchoice := false
  submapper := 0
  prgram_volatile_size := 0
  prgram_nonvolatile_size := 0
  chrram_volatile_size := 0
  chrram_nonvolatile_size := 0
  vs_mode := 0
  vs_ppu := 0

/-- The variant-determination block of `Ines._read_base` (lines 175–194):
from the 16-byte header and the body length, the chosen variant and the
PRG/CHR sizes used for extraction. -/
def Ines.classify (header : List Nat) (bodyLen : Nat) : Variant × Nat × Nat :=
  let prg_size := 16384 * header.getD 4 0
  let chr_size := 8192 * header.getD 5 0
  let has_trainer := header.getD 6 0 &&& 4 != 0
  let variant_bits := (header.getD 7 0 >>> 2) &&& 3
  if variant_bits = 2 then
    let ines2_prg_size := prg_size + 16384 * ((header.getD 9 0 &&& 0x0F) <<< 8)
    let ines2_chr_size := chr_size + 8192 * ((header.getD 9 0 &&& 0xF0) <<< 4)
    let ines2_size := ines2_prg_size + ines2_chr_size +
      (if has_trainer then TRAINER_SIZE else 0)
    if ines2_size ≤ bodyLen then (Variant.nes2, ines2_prg_size, ines2_chr_size)
    else (Variant.archaic, prg_size, chr_size)
  else if variant_bits = 0 ∧ ∀ b ∈ header.drop 12, b = 0 then
    (Variant.normal, prg_size, chr_size)
  else
    (Variant.archaic, prg_size, chr_size)

/-- The trainer byte count implied by the header:
`TRAINER_SIZE if has_trainer else 0`. -/
def Ines.trainer_size (header : List Nat) : Nat :=
  if header.getD 6 0 &&& 4 != 0 then TRAINER_SIZE else 0

/-- `Ines._read_base(header, body)`: classify the variant, validate the
declared total against the body length, cut the trainer/PRG/CHR regions,
apply the doubling heuristic, and decode the common fields. -/
def Ines._read_base (header body : List Nat) : Except PyError Ines := do
  let has_trainer := header.getD 6 0 &&& 4 != 0
  let vpc := Ines.classify header body.length
  let variant := vpc.1
  let prg_size := vpc.2.1
  let chr_size := vpc.2.2
  let size := prg_size + chr_size + (if has_trainer then TRAINER_SIZE else 0)
  if body.length < size then
    Except.error (PyError.inesError "incomplete file")
  else do
    if body.length > size then warn "trailing garbage, ignoring" else Except.ok ()
    let trainer := if has_trainer then (bytes_cut body 0 TRAINER_SIZE).1 else []
    let off1 := if has_trainer then (bytes_cut body 0 TRAINER_SIZE).2 else 0
    let prg0 := (bytes_cut body off1 prg_size).1
    let off2 := (bytes_cut body off1 prg_size).2
    let chr0 := (bytes_cut body off2 chr_size).1
    let prg := if prg_size = 16384 ∧ seq_is_doubled prg0 then seq_half prg0 else prg0
    let chr1 := if chr_size = 8192 ∧ seq_is_doubled chr0 then seq_half chr0 else chr0
    let mirroring :=
      if header.getD 6 0 &&& 8 != 0 then Mirroring.fourscreen
      else if header.getD 6 0 &&& 1 != 0 then Mirroring.vertical
      else Mirroring.horizontal
    let battery := header.getD 6 0 &&& 2 != 0
    Except.ok { Ines.init variant with
           trainer := trainer, prg := prg, chr_ := chr1,
           mirroring := mirroring, battery := battery }

/-- `Ines2._ram_size(n)`: the shared 4-bit RAM-size decoder.  Codes 15 and
above call `warn`, which raises `NameError`. -/
def Ines2._ram_size (n : Nat) : Except PyError Nat := do
  if n = 15 then do
    warn "ram size value 15 is reserved"
    Except.ok 0
  else if n > 15 then do
    warn ("invalid ram size value: " ++ toString n)
    Except.ok 0
  else if n = 0 then Except.ok 0
  else Except.ok (128 * 2 ^ (n - 1))

/-- The per-variant `read_ext` methods of `InesArchaic`, `InesNormal` and
`Ines2`, dispatched on the variant tag `_read_base` chose. -/
def Ines.read_ext (ines : Ines) (header : List Nat) : Except PyError Ines :=
  match ines.variant with
  | Variant.archaic =>
    Except.ok { ines with mapper := header.getD 6 0 >>> 4 }
  | Variant.normal =>
    let prgram_size := 8192 * header.getD 8 0
    let prgram_size := if ines.battery ∧ prgram_size = 0 then 8192 else prgram_size
    Except.ok { ines with
           mapper := (header.getD 7 0 &&& 0xF0) ||| (header.getD 6 0 >>> 4)
           vs := header.getD 7 0 &&& 1 != 0
           playchoice := header.getD 7 0 &&& 2 != 0
           prgram_size := prgram_size
           tv := if header.getD 9 0 &&& 1 != 0 then TvSystem.pal else TvSystem.ntsc }
  | Variant.nes2 => do
    let pv ← Ines2._ram_size (header.getD 10 0 &&& 0x0F)
    let pn ← Ines2._ram_size (header.getD 10 0 >>> 4)
    let cv ← Ines2._ram_size (header.getD 11 0 &&& 0x0F)
    let cn ← Ines2._ram_size (header.getD 11 0 >>> 4)
    Except.ok { ines with
           mapper := ((header.getD 8 0 &&& 0x0F) <<< 8) |||
                     (header.getD 7 0 &&& 0xF0) ||| (header.getD 6 0 >>> 4)
           submapper := header.getD 8 0 >>> 4
           vs := header.getD 7 0 &&& 1 != 0
           playchoice := header.getD 7 0 &&& 2 != 0
           prgram_volatile_size := pv
           prgram_nonvolatile_size := pn
           chrram_volatile_size := cv
           chrram_nonvolatile_size := cn
           tv := if header.getD 12 0 &&& 2 != 0 then TvSystem.dual
                 else if header.getD 12 0 &&& 1 != 0 then TvSystem.pal
                 else TvSystem.ntsc
           vs_mode := header.getD 13 0 >>> 4
           vs_ppu := header.getD 13 0 &&& 0x0F }

/-- `Ines.read(in_)`: read the 16-byte header, check the magic, read the
rest of the stream as the body, run `_read_base` and then the
variant-specific `read_ext`. -/
def Ines.read (input : List Nat) : Except PyError Ines := do
  let header ← read_exact input 16
  if header.take 4 ≠ INES_MAGIC then
    Except.error (PyError.inesError "iNES magic not found")
  else do
    let body := input.drop 16
    let ines ← Ines._read_base header body
    Ines.read_ext ines header

/-- `ines_split_prg`: the list of (file-name suffix, bytes) program
artifacts the splitter writes for a record's `prg` region. -/
def ines_split_prg (prg : List Nat) : List (String × List Nat) :=
  if prg = [] then []
  else if prg.length ≤ 2 * 16384 then [("-PRG.bin", prg)]
  else (seq_chunks prg 16384).enum.map fun p =>
    ("-PRG-" ++ format02d p.1 ++ ".bin", p.2)

/-- `ines_split_chr`: the (file-name suffix, bytes) graphics artifacts. -/
def ines_split_chr (chr_ : List Nat) : List (String × List Nat) :=
  if chr_ = [] then []
  else if chr_.length ≤ 8192 then [("-CHR.bin", chr_)]
  else (seq_chunks chr_ 8192).enum.map fun p =>
    ("-CHR-" ++ format02d p.1 ++ ".bin", p.2)

/-- The doubling heuristic of `_read_base` (lines 210–214) as a function of
the two extracted regions: a 16384-byte PRG whose halves coincide is
replaced by its first half, and independently an 8192-byte CHR whose
halves coincide is replaced by its first half. -/
def fix_doubled (prg chr_ : List Nat) : List Nat × List Nat :=
  (if prg.length = 16384 ∧ seq_is_doubled prg then seq_half prg else prg,
   if chr_.length = 8192 ∧ seq_is_doubled chr_ then seq_half chr_ else chr_)

/-- The PRG byte range `_read_base` cuts out of the body (via `bytes_cut`,
at offset `trainer_size`, of the classified PRG size). -/
def prg_slice (header body : List Nat) : List Nat :=
  (body.drop (Ines.trainer_size header)).take (Ines.classify header body.length).2.1

/-- The CHR byte range `_read_base` cuts out of the body (via `bytes_cut`,
after the trainer and the PRG region). -/
def chr_slice (header body : List Nat) : List Nat :=
  (body.drop (Ines.trainer_size header + (Ines.classify header body.length).2.1)).take
    (Ines.classify header body.length).2.2

deriving instance DecidableEq for Except

theorem exbind_ok {α β : Type} (a : α) (f : α → Except PyError β) :
    (Except.ok a >>= f) = f a := rfl

theorem exbind_error {α β : Type} (e : PyError) (f : α → Except PyError β) :
    ((Except.error e : Except PyError α) >>= f) = Except.error e := rfl

/-- Success characterization of `Ines._read_base`: a parse that returns a
record forces the body length to equal the declared total exactly (any
excess hits the `NameError`-raising `warn`, any deficit the size check),
and describes the extracted regions. -/
theorem read_base_ok {header body : List Nat} {r : Ines}
    (h : Ines._read_base header body = Except.ok r) :
    body.length = (Ines.classify header body.length).2.1 +
        (Ines.classify header body.length).2.2 + Ines.trainer_size header ∧
    r.variant = (Ines.classify header body.length).1 ∧
    r.trainer = body.take (Ines.trainer_size header) ∧
    r.prg = (if (Ines.classify header body.length).2.1 = 16384 ∧
                seq_is_doubled (prg_slice header body)
             then seq_half (prg_slice header body) else prg_slice header body) ∧
    r.chr_ = (if (Ines.classify header body.length).2.2 = 8192 ∧
                 seq_is_doubled (chr_slice header body)
              then seq_half (chr_slice header body) else chr_slice header body) := by
  rcases Bool.eq_false_or_eq_true (header.getD 6 0 &&& 4 != 0) with hht | hht <;>
    simp only [Ines._read_base, bytes_cut, List.drop_zero, hht, if_true, if_false,
      Bool.false_eq_true, Bool.true_eq_false, ite_true, ite_false, Nat.add_zero,
      Nat.zero_add] at h <;>
    simp only [prg_slice, chr_slice, Ines.trainer_size, hht, if_true, if_false,
      Bool.false_eq_true, Bool.true_eq_false, ite_true, ite_false, Nat.add_zero,
      Nat.zero_add, List.drop_zero, List.take_zero] <;>
    split at h
  case inl.isTrue => exact absurd h (by simp)
  case inl.isFalse hlt =>
    split at h
    case isTrue hgt =>
      rw [warn, exbind_error] at h
      exact absurd h (by simp)
    case isFalse hgt =>
      rw [exbind_ok] at h
      simp only [Except.ok.injEq] at h
      subst h
      exact ⟨by omega, rfl, by simp, by simp, by simp⟩
  case inr.isTrue => exact absurd h (by simp)
  case inr.isFalse hlt =>
    split at h
    case isTrue hgt =>
      rw [warn, exbind_error] at h
      exact absurd h (by simp)
    case isFalse hgt =>
      rw [exbind_ok] at h
      simp only [Except.ok.injEq] at h
      subst h
      exact ⟨by omega, rfl, by simp, by simp, by simp⟩

/-- `read_ext` never touches the variant tag or the extracted regions. -/
theorem read_ext_fields {i : Ines} {header : List Nat} {r : Ines}
    (h : Ines.read_ext i header = Except.ok r) :
    r.variant = i.variant ∧ r.prg = i.prg ∧ r.chr_ = i.chr_ ∧ r.trainer = i.trainer := by
  unfold Ines.read_ext at h
  cases hv : i.variant <;> rw [hv] at h
  case archaic =>
    simp only [Except.ok.injEq] at h
    subst h
    simp [hv]
  case normal =>
    simp only [Except.ok.injEq] at h
    subst h
    simp [hv]
  case nes2 =>
    cases h10 : Ines2._ram_size (header.getD 10 0 &&& 0x0F) <;> rw [h10] at h
    case error => rw [exbind_error] at h; exact absurd h (by simp)
    case ok pv =>
    rw [exbind_ok] at h
    cases h10' : Ines2._ram_size (header.getD 10 0 >>> 4) <;> rw [h10'] at h
    case error => rw [exbind_error] at h; exact absurd h (by simp)
    case ok pn =>
    rw [exbind_ok] at h
    cases h11 : Ines2._ram_size (header.getD 11 0 &&& 0x0F) <;> rw [h11] at h
    case error => rw [exbind_error] at h; exact absurd h (by simp)
    case ok cv =>
    rw [exbind_ok] at h
    cases h11' : Ines2._ram_size (header.getD 11 0 >>> 4) <;> rw [h11'] at h
    case error => rw [exbind_error] at h; exact absurd h (by simp)
    case ok cn =>
    rw [exbind_ok] at h
    simp only [Except.ok.injEq] at h
    subst h
    simp [hv]

/-- Decomposition of a successful `Ines.read` on `header ++ body`. -/
theorem read_ok_decomp {header body : List Nat} {r : Ines}
    (h16 : header.length = 16)
    (h : Ines.read (header ++ body) = Except.ok r) :
    header.take 4 = INES_MAGIC ∧
    ∃ i, Ines._read_base header body = Except.ok i ∧
      Ines.read_ext i header = Except.ok r := by
  have hre : read_exact (header ++ body) 16 = Except.ok header := by
    unfold read_exact
    rw [List.take_left' h16, if_pos h16]
  unfold Ines.read at h
  simp only [hre, exbind_ok, List.drop_left' h16] at h
  by_cases hmagic : header.take 4 = INES_MAGIC
  · rw [if_neg (not_not_intro hmagic)] at h
    cases hb : Ines._read_base header body <;> rw [hb] at h
    next e => rw [exbind_error] at h; exact absurd h (by simp)
    next i =>
      rw [exbind_ok] at h
      exact ⟨hmagic, i, rfl, h⟩
  · rw [if_pos hmagic] at h
    exact absurd h (by simp)

/-- The PRG size `classify` reports is a multiple of 16384 and the CHR
size a multiple of 8192, in every variant. -/
theorem classify_sizes_dvd (header : List Nat) (n : Nat) :
    16384 ∣ (Ines.classify header n).2.1 ∧ 8192 ∣ (Ines.classify header n).2.2 := by
  simp only [Ines.classify]
  refine ⟨?_, ?_⟩ <;> (repeat' split) <;> dsimp only [] <;> omega

/-- Forward evaluation of `Ines._read_base` when the body length equals
the declared total exactly (the only length on which it can succeed). -/
theorem read_base_eval {header body : List Nat}
    (hlen : body.length = (Ines.classify header body.length).2.1 +
        (Ines.classify header body.length).2.2 + Ines.trainer_size header) :
    Ines._read_base header body = Except.ok
      { Ines.init (Ines.classify header body.length).1 with
        trainer := body.take (Ines.trainer_size header)
        prg := if (Ines.classify header body.length).2.1 = 16384 ∧
                  seq_is_doubled (prg_slice header body) = true
               then seq_half (prg_slice header body) else prg_slice header body
        chr_ := if (Ines.classify header body.length).2.2 = 8192 ∧
                   seq_is_doubled (chr_slice header body) = true
                then seq_half (chr_slice header body) else chr_slice header body
        mirroring := if (header.getD 6 0 &&& 8 != 0) = true then Mirroring.fourscreen
                     else if (header.getD 6 0 &&& 1 != 0) = true then Mirroring.vertical
                     else Mirroring.horizontal
        battery := header.getD 6 0 &&& 2 != 0 } := by
  rcases Bool.eq_false_or_eq_true (header.getD 6 0 &&& 4 != 0) with hht | hht <;>
    simp only [Ines.trainer_size, TRAINER_SIZE, hht, if_true, if_false, Bool.false_eq_true,
      Bool.true_eq_false, ite_true, ite_false, Nat.add_zero] at hlen <;>
    simp only [Ines._read_base, bytes_cut, prg_slice, chr_slice, Ines.trainer_size,
      TRAINER_SIZE, hht, if_true, if_false, Bool.false_eq_true, Bool.true_eq_false,
      ite_true, ite_false, Nat.add_zero, Nat.zero_add, List.drop_zero, List.take_zero] <;>
    rw [if_neg (by omega), if_neg (by omega), exbind_ok]

/-- Forward evaluation of `Ines.read` on a well-formed input whose body
length matches the declared total. -/
theorem read_eval {header body : List Nat} (h16 : header.length = 16)
    (hmagic : header.take 4 = INES_MAGIC)
    (hlen : body.length = (Ines.classify header body.length).2.1 +
        (Ines.classify header body.length).2.2 + Ines.trainer_size header) :
    Ines.read (header ++ body) = Ines.read_ext
      { Ines.init (Ines.classify header body.length).1 with
        trainer := body.take (Ines.trainer_size header)
        prg := if (Ines.classify header body.length).2.1 = 16384 ∧
                  seq_is_doubled (prg_slice header body) = true
               then seq_half (prg_slice header body) else prg_slice header body
        chr_ := if (Ines.classify header body.length).2.2 = 8192 ∧
                   seq_is_doubled (chr_slice header body) = true
                then seq_half (chr_slice header body) else chr_slice header body
        mirroring := if (header.getD 6 0 &&& 8 != 0) = true then Mirroring.fourscreen
                     else if (header.getD 6 0 &&& 1 != 0) = true then Mirroring.vertical
                     else Mirroring.horizontal
        battery := header.getD 6 0 &&& 2 != 0 } header := by
  have hre : read_exact (header ++ body) 16 = Except.ok header := by
    unfold read_exact
    rw [List.take_left' h16, if_pos h16]
  unfold Ines.read
  simp only [hre, exbind_ok, List.drop_left' h16]
  rw [if_neg (not_not_intro hmagic), read_base_eval hlen, exbind_ok]

/-- A list made of the same block twice is detected by `seq_is_doubled`. -/
theorem seq_is_doubled_replicate (n a : Nat) :
    seq_is_doubled (List.replicate (2 * n) a) = true := by
  unfold seq_is_doubled
  rw [List.length_replicate, show 2 * n / 2 = n from by omega, List.take_replicate,
    List.drop_replicate, Nat.min_eq_left (by omega), show 2 * n - n = n from by omega]
  exact beq_self_eq_true _

/-- Halving a replicate list halves its length. -/
theorem seq_half_replicate (n a : Nat) :
    seq_half (List.replicate (2 * n) a) = List.replicate n a := by
  unfold seq_half
  rw [List.length_replicate, show 2 * n / 2 = n from by omega, List.take_replicate,
    Nat.min_eq_left (by omega)]

/-- On a successful parse the PRG slice has exactly the classified size. -/
theorem prg_slice_length {header body : List Nat}
    (hlen : body.length = (Ines.classify header body.length).2.1 +
        (Ines.classify header body.length).2.2 + Ines.trainer_size header) :
    (prg_slice header body).length = (Ines.classify header body.length).2.1 := by
  simp only [prg_slice, List.length_take, List.length_drop]
  omega

/-- On a successful parse the CHR slice has exactly the classified size. -/
theorem chr_slice_length {header body : List Nat}
    (hlen : body.length = (Ines.classify header body.length).2.1 +
        (Ines.classify header body.length).2.2 + Ines.trainer_size header) :
    (chr_slice header body).length = (Ines.classify header body.length).2.2 := by
  simp only [chr_slice, List.length_take, List.length_drop]
  omega

/-- Halving a nonempty list strictly shrinks it, so the heuristic's
output never has the length that triggered it. -/
theorem half_shrinks {l : List Nat} {n : Nat} (hl : l.length = n) (hn : 0 < n) :
    (seq_half l).length ≠ n := by
  unfold seq_half
  rw [List.length_take, hl]
  omega

/-- Concatenating the chunks of `seq_chunks` gives back the list. -/
theorem seq_chunks_flatten (n : Nat) (hn : 0 < n) :
    ∀ l : List Nat, (seq_chunks l n).flatten = l := by
  have key : ∀ m, ∀ l : List Nat, l.length ≤ m → (seq_chunks l n).flatten = l := by
    intro m
    induction m with
    | zero =>
      intro l hl
      have hnil : l = [] := by
        cases l
        · rfl
        · simp at hl
      subst hnil
      rw [seq_chunks, dif_pos (Or.inl rfl)]
      rfl
    | succ m ih =>
      intro l hl
      rw [seq_chunks]
      split
      next h =>
        rcases h with h | h
        · rw [h]
          rfl
        · omega
      next h =>
        push_neg at h
        have hpos : 0 < l.length := List.length_pos.mpr h.1
        rw [List.flatten_cons, ih (l.drop n) (by rw [List.length_drop]; omega)]
        exact List.take_append_drop n l
  exact fun l => key l.length l le_rfl

/-- When the chunk size divides the list length, every chunk of
`seq_chunks` has exactly the chunk size. -/
theorem seq_chunks_length_dvd (n : Nat) (hn : 0 < n) :
    ∀ l : List Nat, n ∣ l.length → ∀ c ∈ seq_chunks l n, c.length = n := by
  have key : ∀ m, ∀ l : List Nat, l.length ≤ m → n ∣ l.length →
      ∀ c ∈ seq_chunks l n, c.length = n := by
    intro m
    induction m with
    | zero =>
      intro l hl _ c hc
      have hnil : l = [] := by
        cases l
        · rfl
        · simp at hl
      subst hnil
      rw [seq_chunks, dif_pos (Or.inl rfl)] at hc
      simp at hc
    | succ m ih =>
      intro l hl hd c hc
      rw [seq_chunks] at hc
      split at hc
      next => simp at hc
      next h =>
        push_neg at h
        have hpos : 0 < l.length := List.length_pos.mpr h.1
        have hge : n ≤ l.length := Nat.le_of_dvd hpos hd
        rcases List.mem_cons.mp hc with hc | hc
        · rw [hc, List.length_take]
          omega
        · exact ih (l.drop n)
            (by rw [List.length_drop]; omega)
            (by rw [List.length_drop]; exact Nat.dvd_sub' hd dvd_rfl)
            c hc
  exact fun l => key l.length l le_rfl

/-- When the chunk size divides the list length, `seq_chunks` produces
exactly `length / n` chunks. -/
theorem seq_chunks_count (n : Nat) (hn : 0 < n) :
    ∀ l : List Nat, n ∣ l.length → (seq_chunks l n).length = l.length / n := by
  have key : ∀ m, ∀ l : List Nat, l.length ≤ m → n ∣ l.length →
      (seq_chunks l n).length = l.length / n := by
    intro m
    induction m with
    | zero =>
      intro l hl _
      have hnil : l = [] := by
        cases l
        · rfl
        · simp at hl
      subst hnil
      rw [seq_chunks, dif_pos (Or.inl rfl)]
      simp
    | succ m ih =>
      intro l hl hd
      rw [seq_chunks]
      split
      next h =>
        rcases h with h | h
        · rw [h]
          simp
        · omega
      next h =>
        push_neg at h
        have hpos : 0 < l.length := List.length_pos.mpr h.1
        have hge : n ≤ l.length := Nat.le_of_dvd hpos hd
        obtain ⟨k, hk⟩ := hd
        have hkpos : 0 < k := by
          rcases Nat.eq_zero_or_pos k with h0 | h0
          · rw [h0, Nat.mul_zero] at hk
            omega
          · exact h0
        have hdl : (l.drop n).length = n * (k - 1) := by
          rw [List.length_drop, hk]
          cases k with
          | zero => omega
          | succ k' => simp [Nat.mul_succ]
        rw [List.length_cons, ih (l.drop n) (by rw [List.length_drop]; omega)
          (by rw [hdl]; exact Dvd.intro _ rfl), hdl, hk,
          Nat.mul_div_cancel_left _ hn, Nat.mul_div_cancel_left _ hn]
        omega
  exact fun l => key l.length l le_rfl

/-- Extract the PRG-length invariant of every successfully parsed record:
8192 bytes (heuristic fired) or a multiple of 16384 bytes. -/
theorem prg_length_spec {header body : List Nat} {r : Ines}
    (h16 : header.length = 16)
    (hok : Ines.read (header ++ body) = Except.ok r) :
    r.prg.length = 8192 ∨ 16384 ∣ r.prg.length := by
  obtain ⟨-, i, hb, hext⟩ := read_ok_decomp h16 hok
  obtain ⟨hlen, -, -, hprg, -⟩ := read_base_ok hb
  obtain ⟨-, hp2, -, -⟩ := read_ext_fields hext
  have hslp := @prg_slice_length header body hlen
  rw [hp2, hprg]
  split
  next hcond =>
    left
    unfold seq_half
    rw [List.length_take, hslp, hcond.1]
    omega
  next =>
    right
    rw [hslp]
    exact (classify_sizes_dvd header body.length).1

/-- Evaluation of `read_ext` on a record tagged Archaic. -/
theorem read_ext_archaic_eval (i : Ines) (header : List Nat)
    (hv : i.variant = Variant.archaic) :
    Ines.read_ext i header = Except.ok { i with mapper := header.getD 6 0 >>> 4 } := by
  unfold Ines.read_ext
  rw [hv]

/-- Evaluation of `read_ext` on a record tagged Normal. -/
theorem read_ext_normal_eval (i : Ines) (header : List Nat)
    (hv : i.variant = Variant.normal) :
    Ines.read_ext i header = Except.ok
      { i with
        mapper := (header.getD 7 0 &&& 0xF0) ||| (header.getD 6 0 >>> 4)
        vs := header.getD 7 0 &&& 1 != 0
        playchoice := header.getD 7 0 &&& 2 != 0
        prgram_size := if i.battery ∧ 8192 * header.getD 8 0 = 0 then 8192
                       else 8192 * header.getD 8 0
        tv := if header.getD 9 0 &&& 1 != 0 then TvSystem.pal else TvSystem.ntsc } := by
  unfold Ines.read_ext
  rw [hv]

/-- A 16-byte input that is just the magic and twelve zero bytes: empty
PRG, empty CHR, no trainer, Normal variant. -/
def inputZero : List Nat :=
  [0x4E, 0x45, 0x53, 0x1A, 0, 0, 0, 0, 0, 0, 0, 0, 0, 0, 0, 0]

/-- `inputZero` parses to a record with all regions empty. -/
theorem read_inputZero :
    Ines.read inputZero = Except.ok (Ines.init Variant.normal) := by decide

/-- Header: magic, one 16 KiB PRG bank, no CHR, no trainer, variant bits
zero, bytes 12–15 zero (Normal layout). -/
def hdrD : List Nat := [0x4E, 0x45, 0x53, 0x1A, 1, 0, 0, 0, 0, 0, 0, 0, 0, 0, 0, 0]

/-- `hdrD` followed by a 16384-byte PRG region whose two halves agree
byte-for-byte. -/
def inputDoubled : List Nat := hdrD ++ List.replicate 16384 0

/-- The record parsed from `inputDoubled`: the doubling heuristic halves
the PRG region to 8192 bytes. -/
def R_D : Ines := { Ines.init Variant.normal with prg := List.replicate 8192 0 }

theorem classify_hdrD : Ines.classify hdrD 16384 = (Variant.normal, 16384, 0) := by
  decide

theorem trainer_size_hdrD : Ines.trainer_size hdrD = 0 := by decide

theorem read_inputDoubled : Ines.read inputDoubled = Except.ok R_D := by
  have hlenb : (List.replicate 16384 (0 : Nat)).length = 16384 :=
    List.length_replicate 16384 0
  have hps : prg_slice hdrD (List.replicate 16384 0) = List.replicate 16384 0 := by
    rw [prg_slice, hlenb, classify_hdrD, trainer_size_hdrD]
    show List.take 16384 (List.drop 0 (List.replicate 16384 0)) = List.replicate 16384 0
    rw [List.drop_zero, List.take_replicate, Nat.min_self]
  have hcs : chr_slice hdrD (List.replicate 16384 0) = [] := by
    rw [chr_slice, hlenb, classify_hdrD]
    show List.take 0 _ = ([] : List Nat)
    rw [List.take_zero]
  have hdb : seq_is_doubled (List.replicate 16384 (0 : Nat)) = true := by
    rw [show (16384 : Nat) = 2 * 8192 from rfl]
    exact seq_is_doubled_replicate 8192 0
  have hhalf : seq_half (List.replicate 16384 (0 : Nat)) = List.replicate 8192 0 := by
    rw [show (16384 : Nat) = 2 * 8192 from rfl]
    exact seq_half_replicate 8192 0
  have hlen : (List.replicate 16384 (0 : Nat)).length =
      (Ines.classify hdrD (List.replicate 16384 (0 : Nat)).length).2.1 +
      (Ines.classify hdrD (List.replicate 16384 (0 : Nat)).length).2.2 +
      Ines.trainer_size hdrD := by
    rw [hlenb, classify_hdrD, trainer_size_hdrD]
    rfl
  have h := @read_eval hdrD (List.replicate 16384 0) rfl (by decide) hlen
  simp only [hlenb, classify_hdrD, trainer_size_hdrD, hps, hcs, hdb, hhalf,
    List.take_zero, eq_self_iff_true, and_self, true_and, and_true, if_true, ite_true,
    show ((0 : Nat) = 8192) ↔ False from by norm_num, false_and, if_false, ite_false] at h
  show Ines.read (hdrD ++ List.replicate 16384 0) = Except.ok R_D
  rw [h, read_ext_normal_eval _ _ rfl]
  rfl
def inputTrailing : List Nat :=
  [0x4E, 0x45, 0x53, 0x1A, 0, 0, 0, 0, 0, 0, 0, 0, 0, 0, 0, 0, 0]

/-- C1: the spec says an input with trailing garbage after the declared
regions parses successfully with a non-fatal warning; in the code the
`warn` helper raises `NameError` (it prints the undefined name `msg`), so
`Ines.read` aborts on the 17-byte input `inputTrailing` instead of
producing a record. -/
theorem c1_trailing_garbage_aborts :
    Ines.read inputTrailing = Except.error PyError.nameError := by decide

/-- C4: evaluation of the 4-bit RAM-size decoder `Ines2._ram_size`: codes
0–14 decode as the spec says (0, then 128·2^(n−1)), but code 15 and codes
above 15 abort with `NameError` via the buggy `warn` helper instead of
returning 0 with a non-fatal warning. -/
theorem c4_ram_size_eval :
    Ines2._ram_size 0 = Except.ok 0 ∧
    Ines2._ram_size 1 = Except.ok 128 ∧
    Ines2._ram_size 14 = Except.ok 1048576 ∧
    Ines2._ram_size 15 = Except.error PyError.nameError ∧
    Ines2._ram_size 16 = Except.error PyError.nameError := by decide

/-- An 18-byte input: valid magic, all size/flag bytes zero, two bytes of
trailing garbage after the (empty) declared regions. -/
def inputTrailing2 : List Nat :=
  [0x4E, 0x45, 0x53, 0x1A, 0, 0, 0, 0, 0, 0, 0, 0, 0, 0, 0, 0, 0, 0]

/-- A 16-byte NES 2.0 input (variant bits 2, zero-sized regions) whose
header byte 10 carries the reserved RAM-size code 15 in its low nibble. -/
def inputRam15 : List Nat :=
  [0x4E, 0x45, 0x53, 0x1A, 0, 0, 0, 8, 0, 0, 15, 0, 0, 0, 0, 0]

/-- C2: every call of the helper `warn` returns the `NameError` raised by
printing the undefined name `msg`, so each code path the spec calls a
non-fatal warning aborts `Ines.read`: trailing garbage (`inputTrailing2`),
the reserved RAM-size code 15 reached through an NES 2.0 header
(`inputRam15`), and every RAM-size code of 15 or more in the decoder. -/
theorem c2_warn_always_raises :
    (∀ s : String, warn s = Except.error PyError.nameError) ∧
    Ines.read inputTrailing2 = Except.error PyError.nameError ∧
    Ines.read inputRam15 = Except.error PyError.nameError ∧
    (∀ n : Nat, 15 ≤ n → Ines2._ram_size n = Except.error PyError.nameError) := by
  refine ⟨fun s => rfl, by decide, by decide, fun n hn => ?_⟩
  unfold Ines2._ram_size
  rcases eq_or_lt_of_le hn with h | h
  · rw [if_pos h.symm]
    rfl
  · rw [if_neg (by omega), if_pos h]
    rfl

/-- Witness for C2 at the concrete RAM-size code 16. -/
theorem c2_warn_always_raises_witness :
    Ines2._ram_size 16 = Except.error PyError.nameError :=
  c2_warn_always_raises.2.2.2 16 (by norm_num)

/-- C3 is false as stated: `inputDoubled` parses successfully, but the
concatenated trainer‖PRG‖CHR regions are the 8192-byte halved PRG region,
not the first `total` = 16384 bytes of the body, because the doubling
heuristic fired. -/
theorem c3_roundtrip_cex :
    (Ines.read inputDoubled).map (fun r => r.trainer ++ r.prg ++ r.chr_) =
      Except.ok (List.replicate 8192 0) ∧
    (inputDoubled.drop 16).take
      (Ines.trainer_size hdrD + (Ines.classify hdrD (inputDoubled.drop 16).length).2.1 +
        (Ines.classify hdrD (inputDoubled.drop 16).length).2.2) = List.replicate 16384 0 ∧
    List.replicate 8192 (0 : Nat) ≠ List.replicate 16384 0 := by
  have hdrop : inputDoubled.drop 16 = List.replicate 16384 0 := by
    show (hdrD ++ List.replicate 16384 0).drop 16 = List.replicate 16384 0
    exact List.drop_left' rfl
  refine ⟨?_, ?_, ?_⟩
  · rw [read_inputDoubled]
    show Except.ok (R_D.trainer ++ R_D.prg ++ R_D.chr_) = _
    show Except.ok (([] : List Nat) ++ List.replicate 8192 0 ++ []) = _
    rw [List.nil_append, List.append_nil]
  · rw [hdrop, List.length_replicate, classify_hdrD, trainer_size_hdrD]
    show List.take (0 + 16384 + 0) (List.replicate 16384 0) = List.replicate 16384 0
    rw [List.take_replicate]
    norm_num
  · intro hEq
    have hL := congrArg List.length hEq
    rw [List.length_replicate, List.length_replicate] at hL
    omega

/-- C3 (amended): for every input that parses successfully and on which
the doubling heuristic fired for neither region (the parsed PRG is not
8192 bytes and the parsed CHR is not 4096 bytes), the concatenation
trainer‖PRG‖CHR equals exactly the first `total` bytes of the post-header
body, where `total` is the trainer size plus the declared PRG and CHR
sizes. -/
theorem c3_roundtrip_amended {header body : List Nat} {r : Ines}
    (h16 : header.length = 16)
    (hok : Ines.read (header ++ body) = Except.ok r)
    (hp : r.prg.length ≠ 8192)
    (hc : r.chr_.length ≠ 4096) :
    r.trainer ++ r.prg ++ r.chr_ =
      body.take (Ines.trainer_size header + (Ines.classify header body.length).2.1 +
        (Ines.classify header body.length).2.2) := by
  obtain ⟨-, i, hb, hext⟩ := read_ok_decomp h16 hok
  obtain ⟨hlen, hvar, htr, hprg, hchr⟩ := read_base_ok hb
  obtain ⟨-, hp2, hc2, ht2⟩ := read_ext_fields hext
  have hslp := @prg_slice_length header body hlen
  have hslc := @chr_slice_length header body hlen
  rw [hp2] at hp
  rw [hc2] at hc
  have hprg' : i.prg = prg_slice header body := by
    rw [hprg]
    split
    next hcond =>
      exfalso
      apply hp
      rw [hprg, if_pos hcond]
      unfold seq_half
      rw [List.length_take, hslp, hcond.1]
      omega
    next => rfl
  have hchr' : i.chr_ = chr_slice header body := by
    rw [hchr]
    split
    next hcond =>
      exfalso
      apply hc
      rw [hchr, if_pos hcond]
      unfold seq_half
      rw [List.length_take, hslc, hcond.1]
      omega
    next => rfl
  rw [ht2, hp2, hc2, htr, hprg', hchr', prg_slice, chr_slice,
    List.take_add, List.take_add, List.append_assoc]

/-- Witness for C3 (amended) on `inputZero`. -/
theorem c3_roundtrip_amended_witness :
    (Ines.init Variant.normal).trainer ++ (Ines.init Variant.normal).prg ++
        (Ines.init Variant.normal).chr_ =
      List.take (Ines.trainer_size inputZero +
        (Ines.classify inputZero ([] : List Nat).length).2.1 +
        (Ines.classify inputZero ([] : List Nat).length).2.2) [] :=
  c3_roundtrip_amended rfl (by rw [List.append_nil]; exact read_inputZero)
    (by decide) (by decide)

/-- C5 is false as stated: `inputZero` (header byte 4 zero) parses
successfully to a record whose `prg` is empty. -/
theorem c5_empty_prg_cex :
    (Ines.read inputZero).map (fun r => r.prg) = Except.ok ([] : List Nat) := by
  rw [read_inputZero]
  rfl

/-- C5 (amended): for every input that parses successfully, the parsed
`prg` has length 8192 (doubling heuristic) or a multiple of 16384 —
possibly zero: `prg` is empty exactly when the declared PRG size is zero,
as happens when header byte 4 is zero. -/
theorem c5_prg_length_amended {header body : List Nat} {r : Ines}
    (h16 : header.length = 16)
    (hok : Ines.read (header ++ body) = Except.ok r) :
    r.prg.length = 8192 ∨ 16384 ∣ r.prg.length :=
  prg_length_spec h16 hok

/-- Witness for C5 (amended) on `inputZero`. -/
theorem c5_prg_length_amended_witness :
    (Ines.init Variant.normal).prg.length = 8192 ∨
      16384 ∣ (Ines.init Variant.normal).prg.length :=
  @c5_prg_length_amended inputZero [] (Ines.init Variant.normal) rfl
    (by rw [List.append_nil]; exact read_inputZero)

/-- A 16-byte input with variant bits 2 (NES 2.0 candidate) and one
declared 16 KiB PRG bank but an empty body: shorter than the extended
total, and also shorter than the base total. -/
def inputShort : List Nat :=
  [0x4E, 0x45, 0x53, 0x1A, 1, 0, 0, 8, 0, 0, 0, 0, 0, 0, 0, 0]

/-- C6 is false as stated: `inputShort` has variant bits 2 and a body
(empty) strictly shorter than the computed extended total 16384, yet
parsing fails with `InesError` instead of succeeding, because the body is
also shorter than the base total. -/
theorem c6_lookahead_cex :
    Ines.read inputShort = Except.error (PyError.inesError "incomplete file") := by
  decide

/-- C6 (amended): every header with variant bits 2 whose body is strictly
shorter than the computed extended total is classified as Archaic with the
base sizes, never Extended; and when additionally the body length equals
the base total, parsing completes without an error (otherwise the usual
size check or the trailing-garbage path still applies). -/
theorem c6_lookahead_amended {header body : List Nat}
    (h16 : header.length = 16) (hmagic : header.take 4 = INES_MAGIC)
    (hvb : (header.getD 7 0 >>> 2) &&& 3 = 2)
    (hshort : body.length <
      (16384 * header.getD 4 0 + 16384 * ((header.getD 9 0 &&& 0x0F) <<< 8)) +
      (8192 * header.getD 5 0 + 8192 * ((header.getD 9 0 &&& 0xF0) <<< 4)) +
      Ines.trainer_size header) :
    Ines.classify header body.length =
      (Variant.archaic, 16384 * header.getD 4 0, 8192 * header.getD 5 0) ∧
    (body.length = 16384 * header.getD 4 0 + 8192 * header.getD 5 0 +
        Ines.trainer_size header →
      ∃ r, Ines.read (header ++ body) = Except.ok r ∧ r.variant = Variant.archaic) := by
  have hsh : body.length < 16384 * header.getD 4 0 +
      16384 * ((header.getD 9 0 &&& 0x0F) <<< 8) +
      (8192 * header.getD 5 0 + 8192 * ((header.getD 9 0 &&& 0xF0) <<< 4)) +
      (if (header.getD 6 0 &&& 4 != 0) = true then TRAINER_SIZE else 0) := by
    simp only [Ines.trainer_size] at hshort
    omega
  have hcl : Ines.classify header body.length =
      (Variant.archaic, 16384 * header.getD 4 0, 8192 * header.getD 5 0) := by
    simp only [Ines.classify]
    rw [if_pos hvb, if_neg (by omega)]
  refine ⟨hcl, fun hbase => ?_⟩
  have hlen : body.length = (Ines.classify header body.length).2.1 +
      (Ines.classify header body.length).2.2 + Ines.trainer_size header := by
    rw [hcl]
    dsimp only []
    omega
  have hread := read_eval h16 hmagic hlen
  have hex : ∃ r, Ines.read (header ++ body) = Except.ok r := by
    rw [hread]
    exact ⟨_, read_ext_archaic_eval _ header (by rw [hcl]; rfl)⟩
  obtain ⟨r, hr⟩ := hex
  refine ⟨r, hr, ?_⟩
  obtain ⟨-, i, hb, hext⟩ := read_ok_decomp h16 hr
  rw [(read_ext_fields hext).1, (read_base_ok hb).2.1, hcl]

/-- A 16-byte input with variant bits 2, zero base sizes, and a nonzero
header byte 9 (so the extended total is 4 MiB while the body is empty). -/
def hdrC6w : List Nat :=
  [0x4E, 0x45, 0x53, 0x1A, 0, 0, 0, 8, 0, 1, 0, 0, 0, 0, 0, 0]

/-- Witness for C6 (amended) on `hdrC6w` with an empty body, also
discharging the base-total antecedent of the success conjunct. -/
theorem c6_lookahead_amended_witness :
    Ines.classify hdrC6w ([] : List Nat).length =
      (Variant.archaic, 16384 * hdrC6w.getD 4 0, 8192 * hdrC6w.getD 5 0) ∧
    ∃ r, Ines.read (hdrC6w ++ []) = Except.ok r ∧ r.variant = Variant.archaic :=
  ⟨(@c6_lookahead_amended hdrC6w [] rfl (by decide) (by decide) (by decide)).1,
   (@c6_lookahead_amended hdrC6w [] rfl (by decide) (by decide) (by decide)).2
     (by decide)⟩

/-- C7: the doubling heuristic, as a function of the PRG/CHR region pair,
is idempotent — a second application changes nothing, because a halved
region no longer has the triggering length. -/
theorem c7_heuristic_idempotent (prg chr_ : List Nat) :
    fix_doubled (fix_doubled prg chr_).1 (fix_doubled prg chr_).2 = fix_doubled prg chr_ := by
  unfold fix_doubled
  dsimp only []
  congr 1
  · by_cases hP : prg.length = 16384 ∧ seq_is_doubled prg = true
    · rw [if_pos hP,
        if_neg (fun hc2 => absurd hc2.1 (half_shrinks hP.1 (by norm_num)))]
    · rw [if_neg hP, if_neg hP]
  · by_cases hQ : chr_.length = 8192 ∧ seq_is_doubled chr_ = true
    · rw [if_pos hQ,
        if_neg (fun hc2 => absurd hc2.1 (half_shrinks hQ.1 (by norm_num)))]
    · rw [if_neg hQ, if_neg hQ]

/-- C8: on a fixed header, the variant tag of a successful parse depends
only on the body's length, never on the trainer/PRG/CHR byte content. -/
theorem c8_variant_deterministic {header b1 b2 : List Nat} {r1 r2 : Ines}
    (h16 : header.length = 16) (hlen : b1.length = b2.length)
    (h1 : Ines.read (header ++ b1) = Except.ok r1)
    (h2 : Ines.read (header ++ b2) = Except.ok r2) :
    r1.variant = r2.variant := by
  obtain ⟨-, i1, hb1, he1⟩ := read_ok_decomp h16 h1
  obtain ⟨-, i2, hb2, he2⟩ := read_ok_decomp h16 h2
  rw [(read_ext_fields he1).1, (read_ext_fields he2).1,
    (read_base_ok hb1).2.1, (read_base_ok hb2).2.1, hlen]

/-- Witness for C8 on `inputZero` with two (empty) bodies. -/
theorem c8_variant_deterministic_witness :
    (Ines.init Variant.normal).variant = (Ines.init Variant.normal).variant :=
  @c8_variant_deterministic inputZero [] [] (Ines.init Variant.normal)
    (Ines.init Variant.normal) rfl rfl
    (by rw [List.append_nil]; exact read_inputZero)
    (by rw [List.append_nil]; exact read_inputZero)

/-- C9 is false as stated: the record parsed from `inputZero` has empty
program data (length 0 ≤ 32768), yet the splitter emits no program
artifact at all instead of exactly one. -/
theorem c9_split_empty_cex :
    (Ines.read inputZero).map (fun r => (r.prg.length, ines_split_prg r.prg)) =
      Except.ok ((0 : Nat), ([] : List (String × List Nat))) := by
  rw [read_inputZero]
  rfl

/-- C9 (amended): for every parsed record with nonempty program data, a
program region of at most 32768 bytes is emitted as the single artifact
`-PRG.bin` holding the whole region; a larger region is emitted as
consecutive 16384-byte chunks named `-PRG-00.bin`, `-PRG-01.bin`, … in
input order, whose concatenation is the whole region and whose every
chunk — the final one included — is exactly 16384 bytes. -/
theorem c9_split_amended {header body : List Nat} {r : Ines}
    (h16 : header.length = 16)
    (hok : Ines.read (header ++ body) = Except.ok r)
    (hne : r.prg ≠ []) :
    (r.prg.length ≤ 2 * 16384 →
      ines_split_prg r.prg = [("-PRG.bin", r.prg)]) ∧
    (2 * 16384 < r.prg.length →
      (ines_split_prg r.prg).map Prod.fst =
        (List.range (r.prg.length / 16384)).map
          (fun i => "-PRG-" ++ format02d i ++ ".bin") ∧
      ((ines_split_prg r.prg).map Prod.snd).flatten = r.prg ∧
      ∀ c ∈ (ines_split_prg r.prg).map Prod.snd, c.length = 16384) := by
  have hdvd : 2 * 16384 < r.prg.length → 16384 ∣ r.prg.length := by
    intro hgt
    rcases prg_length_spec h16 hok with h | h
    · omega
    · exact h
  constructor
  · intro hle
    rw [ines_split_prg, if_neg hne, if_pos hle]
  · intro hgt
    have hd := hdvd hgt
    rw [ines_split_prg, if_neg hne, if_neg (by omega)]
    refine ⟨?_, ?_, ?_⟩
    · rw [show r.prg.length / 16384 = (seq_chunks r.prg 16384).length from
        (seq_chunks_count 16384 (by norm_num) r.prg hd).symm,
        ← List.enum_map_fst, List.map_map, List.map_map]
      rfl
    · rw [List.map_map,
        show Prod.snd ∘ (fun p : Nat × List Nat =>
          ("-PRG-" ++ format02d p.1 ++ ".bin", p.2)) = Prod.snd from rfl,
        List.enum_map_snd]
      exact seq_chunks_flatten 16384 (by norm_num) r.prg
    · intro c hc
      rw [List.map_map,
        show Prod.snd ∘ (fun p : Nat × List Nat =>
          ("-PRG-" ++ format02d p.1 ++ ".bin", p.2)) = Prod.snd from rfl,
        List.enum_map_snd] at hc
      exact seq_chunks_length_dvd 16384 (by norm_num) r.prg hd c hc

/-- Witness for C9 (amended): the 8192-byte program region of the record
parsed from `inputDoubled` is emitted whole as `-PRG.bin`. -/
theorem c9_split_amended_witness :
    ines_split_prg R_D.prg = [("-PRG.bin", R_D.prg)] :=
  (@c9_split_amended hdrD (List.replicate 16384 0) R_D rfl
      (show Ines.read (hdrD ++ List.replicate 16384 0) = Except.ok R_D from
        read_inputDoubled)
      (by decide)).1
    (by rw [show R_D.prg = List.replicate 8192 0 from rfl, List.length_replicate]; norm_num)

/-- C10: when a parsed record's program data is empty — as happens when
header byte 4 is zero, e.g. on `inputZero` — `ines_split_prg` emits no
program artifact at all. -/
theorem c10_empty_prg_split {header body : List Nat} {r : Ines}
    (h16 : header.length = 16)
    (hok : Ines.read (header ++ body) = Except.ok r)
    (hemp : r.prg = []) :
    ines_split_prg r.prg = [] := by
  rw [ines_split_prg, if_pos hemp]

/-- Witness for C10 on `inputZero`, whose header byte 4 is zero. -/
theorem c10_empty_prg_split_witness :
    ines_split_prg (Ines.init Variant.normal).prg = [] :=
  @c10_empty_prg_split inputZero [] (Ines.init Variant.normal) rfl
    (by rw [List.append_nil]; exact read_inputZero) rfl
